import Mathlib

/-!
Shallow embedding of the `nba_pbp_analysis` repository
(`nba_data_functions.py` and `nba_shot_viz.py`).

Tabular dataframes are modelled as lists of structure values, one structure
per row.  Missing values (pandas `NaN`) are modelled with `Option`.  Fallible
pandas operations (`pd.to_datetime` on a malformed string, `unique()[0]` on an
empty frame, `pd.concat([])`) are modelled with `Except` / `Option`.
-/

set_option maxRecDepth 40000

deriving instance DecidableEq for Except

/-- A row of the raw play-by-play frame `pbp`.  The last three fields model
the columns that `pbp_processing` adds in place to the caller's frame
(`MINUTES_REMAINING`, `SECONDS_REMAINING`, `ABS_SCORE_DIFF`); on the raw
input they are all `none`. -/
structure PbpFrameRow where
  gameid : ℕ
  period : ℕ
  endtime : String
  startscorediff : ℤ
  minutes_remaining : Option ℕ := none
  seconds_remaining : Option ℕ := none
  abs_score_diff : Option ℕ := none
deriving DecidableEq

/-- A row of the cleaned output of `pbp_processing`
(columns `GAMEID, PERIOD, MINUTES_REMAINING, SECONDS_REMAINING, ABS_SCORE_DIFF`). -/
structure NRow where
  gameid : ℕ
  period : ℕ
  minutes : ℕ
  seconds : ℕ
  abs : ℕ
deriving DecidableEq

/-- A row of the per-second score timeline produced by
`process_score_difference` (columns `GAME_ID, TIME_ELAPSED, ABS_SCORE_DIFF`;
the score-difference column is a float column that may hold `NaN`). -/
structure TRow where
  game_id : ℕ
  time_elapsed : ℕ
  abs : Option ℕ
deriving DecidableEq

/-- Split a list of characters at every occurrence of `c`
(the field separator of a `%M:%S` clock string). -/
def splitCh (c : Char) : List Char → List (List Char)
  | [] => [[]]
  | x :: xs =>
    if x = c then [] :: splitCh c xs
    else
      match splitCh c xs with
      | [] => [[x]]
      | p :: ps => (x :: p) :: ps

/-- Read a non-empty, at most two digit group as a number, as `strptime`'s
`%M` / `%S` directives do. -/
def digitGroupToNat (l : List Char) : Option ℕ :=
  if l ≠ [] ∧ l.length ≤ 2 ∧ l.all (·.isDigit) then
    some (l.foldl (fun a c => a * 10 + (c.toNat - 48)) 0)
  else none

/-- Model of `pd.to_datetime(_, format = "%M:%S")` on one string: two digit groups
separated by a colon, each in `[0, 59]`.  `none` models the `ValueError`
raised on a malformed clock string. -/
def parseClock (s : String) : Option (ℕ × ℕ) :=
  match splitCh ':' s.data with
  | [mm, ss] =>
    match digitGroupToNat mm, digitGroupToNat ss with
    | some m, some s2 => if m ≤ 59 ∧ s2 ≤ 59 then some (m, s2) else none
    | _, _ => none
  | _ => none

/-- One row of the in-place mutation performed by `pbp_processing`
lines 15-21: parse `ENDTIME`, store its minute and second components, and
store `abs(STARTSCOREDIFFERENTIAL)`. -/
def parseRow (r : PbpFrameRow) : Except String PbpFrameRow :=
  match parseClock r.endtime with
  | none => .error "MalformedClock"
  | some (m, s) =>
    .ok { r with minutes_remaining := some m, seconds_remaining := some s,
                 abs_score_diff := some r.startscorediff.natAbs }

/-- Model of `pd.to_datetime` applied to the whole `ENDTIME` column: the first
malformed string aborts the call. -/
def parseAll : List PbpFrameRow → Except String (List PbpFrameRow)
  | [] => .ok []
  | r :: rs =>
    match parseRow r with
    | .error e => .error e
    | .ok r2 =>
      match parseAll rs with
      | .error e => .error e
      | .ok rs2 => .ok (r2 :: rs2)

/-- Helper for first-occurrence-order deduplication: `seen` holds the
values already emitted. -/
def uniqueAux {α : Type} [DecidableEq α] (seen : List α) : List α → List α
  | [] => []
  | x :: xs =>
    if x ∈ seen then uniqueAux seen xs else x :: uniqueAux (x :: seen) xs

/-- First-occurrence-order deduplication, as `pandas.unique` /
`groupby`'s distinct keys behave. -/
def uniqueKeep {α : Type} [DecidableEq α] (l : List α) : List α :=
  uniqueAux [] l

/-- The grouping key of `pbp_processing`'s groupby:
`(GAMEID, PERIOD, MINUTES_REMAINING, SECONDS_REMAINING)`. -/
def keyOf (r : NRow) : ℕ × ℕ × ℕ × ℕ :=
  (r.gameid, r.period, r.minutes, r.seconds)

/-- Model of `groupby([...], as_index = False).max()`: one row per distinct key,
keeping the maximum `ABS_SCORE_DIFF` of the group. -/
def groupMax (l : List NRow) : List NRow :=
  (uniqueKeep (l.map keyOf)).map fun k =>
    { gameid := k.1, period := k.2.1, minutes := k.2.2.1, seconds := k.2.2.2,
      abs := ((l.filter (fun r => decide (keyOf r = k))).map (·.abs)).foldl max 0 }

/-- Insert into a sorted list according to the boolean comparison `le`. -/
def insertSorted {α : Type} (le : α → α → Bool) (x : α) : List α → List α
  | [] => [x]
  | y :: ys => if le x y then x :: y :: ys else y :: insertSorted le x ys

/-- Insertion sort according to the boolean comparison `le`. -/
def sortByLe {α : Type} (le : α → α → Bool) : List α → List α
  | [] => []
  | x :: xs => insertSorted le x (sortByLe le xs)

/-- The comparison realised by
`sort_values(by = [GAMEID, PERIOD, MINUTES_REMAINING, SECONDS_REMAINING],
ascending = [True, False, True, True])`: ascending game id, **descending**
period, ascending minutes, ascending seconds. -/
def pbpLe (a b : NRow) : Bool :=
  if a.gameid ≠ b.gameid then decide (a.gameid < b.gameid)
  else if a.period ≠ b.period then decide (b.period < a.period)
  else if a.minutes ≠ b.minutes then decide (a.minutes < b.minutes)
  else decide (a.seconds ≤ b.seconds)

/-- Model of `pbp_processing` (`nba_data_functions.py`, lines 10-26).  Returns the
cleaned output frame together with the final state of the caller's input
frame, which the function mutates in place (it adds the
`MINUTES_REMAINING`, `SECONDS_REMAINING` and `ABS_SCORE_DIFF` columns;
`END_TIME2` is added and dropped again). -/
def pbp_processing (pbp : List PbpFrameRow) :
    Except String (List NRow × List PbpFrameRow) :=
  match parseAll pbp with
  | .error e => .error e
  | .ok st =>
    let sel : List NRow := st.map fun r =>
      { gameid := r.gameid, period := r.period,
        minutes := r.minutes_remaining.getD 0,
        seconds := r.seconds_remaining.getD 0,
        abs := r.abs_score_diff.getD 0 }
    .ok (sortByLe pbpLe (groupMax sel), st)

/-- The `np.where`-selected time-elapsed formula of
`process_score_difference` (line 47): regulation periods use
`(PERIOD-1)*12*60 + 12*60 - SECONDS_REMAINING - MINUTES_REMAINING*60`,
overtime periods use
`48*60 + (PERIOD-5)*5*60 + 5*60 - SECONDS_REMAINING - MINUTES_REMAINING*60`. -/
def timeElapsedPBP (p m s : ℕ) : ℤ :=
  if p ≤ 4 then ((p : ℤ) - 1) * 12 * 60 + 12 * 60 - (s : ℤ) - (m : ℤ) * 60
  else 48 * 60 + ((p : ℤ) - 5) * 5 * 60 + 5 * 60 - (s : ℤ) - (m : ℤ) * 60

/-- The time elapsed of one cleaned play-by-play row. -/
def timeElapsedN (r : NRow) : ℤ := timeElapsedPBP r.period r.minutes r.seconds

/-- Model of `PERIOD.max()` of one game's frame. -/
def maxPeriod (game : List NRow) : ℕ := (game.map (·.period)).foldl max 0

/-- Model of `max_game_seconds` (lines 34-37): `48*60` plus `5*60` per overtime
period. -/
def maxGameSeconds (game : List NRow) : ℕ :=
  if maxPeriod game > 4 then 48 * 60 + (maxPeriod game - 4) * 5 * 60 else 48 * 60

/-- The rows the left merge of line 50 emits for the grid second `t`: one
`NaN` row when no event matches, otherwise one row per matching event. -/
def branchAt (gid : ℕ) (game : List NRow) (t : ℕ) : List TRow :=
  match game.filter (fun r => decide (timeElapsedN r = (t : ℤ))) with
  | [] => [{ game_id := gid, time_elapsed := t, abs := none }]
  | ms => ms.map fun r => { game_id := gid, time_elapsed := t, abs := some r.abs }

/-- The left merge of the dense second grid `range (0, max_game_seconds+1)`
against the game's events, keyed on `TIME_ELAPSED` (line 50). -/
def mergeGrid (gid : ℕ) (n : ℕ) (game : List NRow) : List TRow :=
  (List.range n).flatMap (branchAt gid game)

/-- Model of `score_diff.loc[score_diff['TIME_ELAPSED'] == 0, 'ABS_SCORE_DIFF'] = 0`
(line 52). -/
def setZero (rows : List TRow) : List TRow :=
  rows.map fun r => if r.time_elapsed = 0 then { r with abs := some 0 } else r

/-- Forward fill of a column: a missing cell takes the last value seen
before it (`fillna(method = "ffill")`); `last` is the value carried in. -/
def ffillAux (last : Option ℕ) : List (Option ℕ) → List (Option ℕ)
  | [] => []
  | some v :: rest => some v :: ffillAux (some v) rest
  | none :: rest => last :: ffillAux last rest

/-- Backward fill of a column: a missing cell takes the next value after it
(`fillna(method = "bfill")`). -/
def bfillList (l : List (Option ℕ)) : List (Option ℕ) :=
  (ffillAux none l.reverse).reverse

/-- Apply a column transformation to the `ABS_SCORE_DIFF` column of a
timeline frame. -/
def applyAbs (f : List (Option ℕ) → List (Option ℕ)) (rows : List TRow) :
    List TRow :=
  (rows.zip (f (rows.map (·.abs)))).map fun p => { p.1 with abs := p.2 }

/-- Model of `process_score_difference` (lines 28-57).  `none` models the
`IndexError` of `game_df.GAMEID.unique()[0]` on an empty frame. -/
def process_score_difference (game : List NRow) : Option (List TRow) :=
  match game with
  | [] => none
  | g0 :: _ =>
    let n := maxGameSeconds game + 1
    some (applyAbs (ffillAux none)
      (applyAbs bfillList (setZero (mergeGrid g0.gameid n game))))

/-- The per-game loop body of `pbp_game_processing` followed by the final
concatenation: process the games of `gs` in order, propagating the first
raised error. -/
def processGames (pbp : List PbpFrameRow) : List ℕ → Except String (List TRow)
  | [] => .ok []
  | g :: gs =>
    match pbp_processing (pbp.filter (fun r => decide (r.gameid = g))) with
    | .error e => .error e
    | .ok df1 =>
      match process_score_difference df1.1 with
      | none => .error "IndexError"
      | some tl =>
        match processGames pbp gs with
        | .error e => .error e
        | .ok rest => .ok (tl ++ rest)

/-- Model of `pbp_game_processing` (lines 72-85): loop over `pbp.GAMEID.unique()`,
then `pd.concat` (which raises on an empty list of frames). -/
def pbp_game_processing (pbp : List PbpFrameRow) : Except String (List TRow) :=
  if uniqueKeep (pbp.map (·.gameid)) = [] then .error "concat of empty list"
  else processGames pbp (uniqueKeep (pbp.map (·.gameid)))

/-- A row of the raw shot-detail frame. -/
structure SRow where
  gameid : ℕ
  game_date : String
  player_id : ℕ
  player_name : String
  team_name : String
  period : ℕ
  minutes_remaining : ℕ
  seconds_remaining : ℕ
  shot_zone : String
  shot_attempted : ℕ
  shot_made : ℕ
deriving DecidableEq

/-- A shot-detail row after `shot_detail_time_elapsed` added the
`TIME_ELAPSED` column. -/
structure STRow where
  shot : SRow
  time_elapsed : ℤ
deriving DecidableEq

/-- The regulation branch formula of `shot_detail_time_elapsed` (line 65). -/
def shotTEreg (r : SRow) : ℤ :=
  ((r.period : ℤ) - 1) * 12 * 60 +
    (12 * 60 - (r.minutes_remaining : ℤ) * 60 - (r.seconds_remaining : ℤ))

/-- The overtime branch formula of `shot_detail_time_elapsed` (line 66). -/
def shotTEot (r : SRow) : ℤ :=
  48 * 60 + ((r.period : ℤ) - 5) * 5 * 60 +
    (5 * 60 - (r.minutes_remaining : ℤ) * 60 - (r.seconds_remaining : ℤ))

/-- Model of `shot_detail_time_elapsed` (lines 59-70): split into the regulation
subset (`PERIOD <= 4`) and the overtime subset (`PERIOD > 4`), compute
`TIME_ELAPSED` on each, and concatenate regulation before overtime. -/
def shot_detail_time_elapsed (shots : List SRow) : List STRow :=
  (shots.filter (fun r => decide (r.period ≤ 4))).map
      (fun r => { shot := r, time_elapsed := shotTEreg r }) ++
    (shots.filter (fun r => decide (4 < r.period))).map
      (fun r => { shot := r, time_elapsed := shotTEot r })

/-- A row of the final output frame of `full_shot_detail_output`
(its fixed column selection, lines 102-103). -/
structure OutRow where
  game_id : ℕ
  game_date : String
  player_id : ℕ
  player_name : String
  team_name : String
  period : ℕ
  minutes_remaining : ℕ
  seconds_remaining : ℕ
  time_elapsed : ℤ
  abs_score_diff : Option ℕ
  shot_attempted_flag : ℕ
  shot_made_flag : ℕ
  three_pt_attempted_flag : ℕ
deriving DecidableEq

/-- Build one output row from a shot and the score difference its join
produced.  `3PT_ATTEMPTED_FLAG` is set to 1 where `SHOT_ZONE_BASIC`
contains the character "3" and filled with 0 elsewhere (lines 100-101). -/
def mkOut (s : STRow) (a : Option ℕ) : OutRow :=
  { game_id := s.shot.gameid, game_date := s.shot.game_date,
    player_id := s.shot.player_id, player_name := s.shot.player_name,
    team_name := s.shot.team_name, period := s.shot.period,
    minutes_remaining := s.shot.minutes_remaining,
    seconds_remaining := s.shot.seconds_remaining,
    time_elapsed := s.time_elapsed, abs_score_diff := a,
    shot_attempted_flag := s.shot.shot_attempted,
    shot_made_flag := s.shot.shot_made,
    three_pt_attempted_flag := if '3' ∈ s.shot.shot_zone.data then 1 else 0 }

/-- The timeline rows matching one shot's `(GAME_ID, TIME_ELAPSED)` join
key. -/
def rowsMatch (tl : List TRow) (s : STRow) : List TRow :=
  tl.filter fun t =>
    decide (t.game_id = s.shot.gameid) && decide ((t.time_elapsed : ℤ) = s.time_elapsed)

/-- The output rows that the left merge of line 98 emits for one shot: one
row with a missing score difference on a join miss, otherwise one row per
matching timeline row. -/
def rowsFor (tl : List TRow) (s : STRow) : List OutRow :=
  match rowsMatch tl s with
  | [] => [mkOut s none]
  | ms => ms.map fun t => mkOut s t.abs

/-- The left merge of the shot frame against the processed play-by-play
frame on `(GAME_ID, TIME_ELAPSED)`, followed by the three-point flag and
the column selection (lines 98-103). -/
def joinShots (sd : List STRow) (tl : List TRow) : List OutRow :=
  sd.flatMap (rowsFor tl)

/-- Model of the `ffill` applied to the `ABS_SCORE_DIFF` column of the concatenated
play-by-play timeline (line 95) — this happens **before** the join. -/
def ffillAbsCol (tl : List TRow) : List TRow := applyAbs (ffillAux none) tl

/-- Model of `full_shot_detail_output` (lines 87-103). -/
def full_shot_detail_output (shots : List SRow) (pbp : List PbpFrameRow) :
    Except String (List OutRow) :=
  match pbp_game_processing pbp with
  | .error e => .error e
  | .ok tl => .ok (joinShots (shot_detail_time_elapsed shots) (ffillAbsCol tl))

/-- The timeline a play-by-play frame produces, defaulting to the empty
frame when `pbp_game_processing` raises. -/
def tlOf (pbp : List PbpFrameRow) : List TRow :=
  match pbp_game_processing pbp with
  | .error _ => []
  | .ok tl => tl

/-- A row of the cleaned shot frame entering `create_buckets`
(after `clean_pbp_data` renamed the flag columns to `FGA`, `FGM`, `3PA`,
derived `3PM` and `RAW_MINUTES_REMAINING`, and dropped the identifier and
clock columns). -/
structure ClnRow where
  player_name : String
  team_name : String
  fga : ℕ
  fgm : ℕ
  threePA : ℕ
  threePM : ℕ
  abs_score_diff : ℕ
  raw_minutes : ℕ
deriving DecidableEq

/-- A row after `create_buckets` replaced the two numeric columns by their
bucket labels.  `pd.cut` leaves values outside every bin unlabelled
(`NaN`), hence the `Option`. -/
structure BRow where
  player_name : String
  team_name : String
  fga : ℕ
  fgm : ℕ
  threePA : ℕ
  threePM : ℕ
  minuteBucket : Option String
  scoreBucket : Option String
deriving DecidableEq

/-- An idealized pandas float cell: a rational number, `NaN`, or an
infinity. -/
inductive PdFloat where
  | finite (q : ℚ)
  | nan
  | inf
deriving DecidableEq

/-- Pandas float division of column cells: `0/0` is `NaN` and `x/0` with
`x ≠ 0` is an infinity. -/
def pdDiv (num den : ℚ) : PdFloat :=
  if den = 0 then (if num = 0 then .nan else .inf) else .finite (num / den)

/-- The floor of a rational number, computed on its reduced fraction. -/
def ratFloor (q : ℚ) : ℤ := Int.fdiv q.num q.den

/-- Round half to even, as `numpy.round` does. -/
def bankersRound (q : ℚ) : ℤ :=
  let f := ratFloor q
  if q - (f : ℚ) = 1 / 2 then (if Even f then f else f + 1)
  else if q - (f : ℚ) < 1 / 2 then f else f + 1

/-- Model of `round(_, 3)` on a rational value. -/
def round3 (q : ℚ) : ℚ := (bankersRound (q * 1000) : ℚ) / 1000

/-- Model of `round(_, 3)` on a pandas float cell. -/
def pdRound3 : PdFloat → PdFloat
  | .finite q => .finite (round3 q)
  | .nan => .nan
  | .inf => .inf

/-- A row of the aggregated bucket table produced by `aggregate_data`. -/
structure AggRow where
  minuteBucket : String
  scoreBucket : String
  fga : ℕ
  fgm : ℕ
  threePA : ℕ
  threePM : ℕ
  efg : PdFloat
deriving DecidableEq

/-- The score-differential cut of `create_buckets` (lines 36-37):
`pd.cut(_, bins = [-1, 5, 10, 15, 20, 100], labels = ["0-5", "6-10",
"11-15", "16-20", "21+"])`.  A value above the last bin edge 100 gets no
label. -/
def scoreBucketOf (d : ℕ) : Option String :=
  if d ≤ 5 then some "0-5"
  else if d ≤ 10 then some "6-10"
  else if d ≤ 15 then some "11-15"
  else if d ≤ 20 then some "16-20"
  else if d ≤ 100 then some "21+"
  else none

/-- The minutes-remaining cut of `create_buckets` (lines 39-40):
4-minute bins from -1 to 48. -/
def minuteBucketOf (m : ℕ) : Option String :=
  if m ≤ 4 then some "4-0"
  else if m ≤ 8 then some "8-5"
  else if m ≤ 12 then some "12-9"
  else if m ≤ 16 then some "16-13"
  else if m ≤ 20 then some "20-17"
  else if m ≤ 24 then some "24-21"
  else if m ≤ 28 then some "28-25"
  else if m ≤ 32 then some "32-29"
  else if m ≤ 36 then some "36-33"
  else if m ≤ 40 then some "40-37"
  else if m ≤ 44 then some "44-41"
  else if m ≤ 48 then some "48-45"
  else none

/-- Model of `create_buckets` (lines 33-42): label both columns and drop the numeric
originals. -/
def create_buckets (l : List ClnRow) : List BRow :=
  l.map fun r =>
    { player_name := r.player_name, team_name := r.team_name,
      fga := r.fga, fgm := r.fgm, threePA := r.threePA, threePM := r.threePM,
      minuteBucket := minuteBucketOf r.raw_minutes,
      scoreBucket := scoreBucketOf r.abs_score_diff }

/-- The category levels of the minutes-remaining cut, in bin order. -/
def minuteLabels : List String :=
  ["4-0", "8-5", "12-9", "16-13", "20-17", "24-21", "28-25", "32-29",
   "36-33", "40-37", "44-41", "48-45"]

/-- The category levels of the score-differential cut, in bin order. -/
def scoreLabels : List String :=
  ["0-5", "6-10", "11-15", "16-20", "21+"]

/-- All `(RAW_MINUTES_REMAINING_BUCKETS, ABS_SCORE_DIFF_BUCKETS)` category
pairs, in the sorted order `groupby` emits for two categorical keys
(every combination appears, observed or not; rows with an unlabelled key
are dropped). -/
def allBucketPairs : List (String × String) :=
  minuteLabels.flatMap fun m => scoreLabels.map fun sc => (m, sc)

/-- The filter step of `aggregate_data` (lines 47-51): `if player_name is
not None … elif team_name is not None … else` — the player filter takes
precedence. -/
def filterStep (player_name team_name : Option String) (df : List BRow) :
    List BRow :=
  match player_name with
  | some p => df.filter fun r => decide (r.player_name = p)
  | none =>
    match team_name with
    | some t => df.filter fun r => decide (r.team_name = t)
    | none => df

/-- The groupby-sum and EFG computation of `aggregate_data` (lines 54-56):
one output row per category pair, summing the count columns of the group
and computing `round((FGM + 0.5*3PM) / FGA, 3)`. -/
def groupAndSum (df : List BRow) : List AggRow :=
  allBucketPairs.map fun k =>
    let g := df.filter fun r =>
      decide (r.minuteBucket = some k.1) && decide (r.scoreBucket = some k.2)
    let fga := (g.map (·.fga)).sum
    let fgm := (g.map (·.fgm)).sum
    let tpa := (g.map (·.threePA)).sum
    let tpm := (g.map (·.threePM)).sum
    { minuteBucket := k.1, scoreBucket := k.2,
      fga := fga, fgm := fgm, threePA := tpa, threePM := tpm,
      efg := pdRound3 (pdDiv ((fgm : ℚ) + (1 / 2) * (tpm : ℚ)) (fga : ℚ)) }

/-- Model of `aggregate_data` (lines 44-59). -/
def aggregate_data (df : List BRow) (player_name team_name : Option String) :
    List AggRow :=
  groupAndSum (filterStep player_name team_name df)

/-- The score difference the merge attaches at the grid second `t`: the
first matching event's value, `none` on a miss.  (Used to describe the
merge when the events' elapsed times are pairwise distinct.) -/
def lookAbs (game : List NRow) (t : ℕ) : Option ℕ :=
  match game.filter (fun r => decide (timeElapsedN r = (t : ℤ))) with
  | [] => none
  | r :: _ => some r.abs

/-- A raw play-by-play frame whose sort order shows where the `ascending`
flags of `sort_values` actually land: one game, events at
(period 1, 5:00), (period 1, 11:00), (period 2, 11:00). -/
def pbpThreeRows : List PbpFrameRow :=
  [⟨1, 1, "5:00", 2, none, none, none⟩,
   ⟨1, 1, "11:00", 4, none, none, none⟩,
   ⟨1, 2, "11:00", -3, none, none, none⟩]

/-- A raw frame for one game with an end-of-regulation event
(period 4, clock 0:00) and a start-of-overtime event (period 5, clock
5:00); the two map to the same elapsed second 2880. -/
def rawOvertime : List PbpFrameRow :=
  [⟨1, 4, "0:00", 3, none, none, none⟩, ⟨1, 5, "5:00", 3, none, none, none⟩]

/-- The cleaned frame `pbp_processing` produces for `rawOvertime`. -/
def gameOvertime : List NRow := [⟨1, 5, 5, 0, 3⟩, ⟨1, 4, 0, 0, 3⟩]

/-- A one-event cleaned game frame (period 1, 11:30 on the clock,
differential 5). -/
def gameOneEvent : List NRow := [⟨1, 1, 11, 30, 5⟩]

/-- A shot in game 2 (period 1, 11:30 on the clock). -/
def shotOtherGame : SRow :=
  ⟨2, "2021-10-19", 10, "P", "T", 1, 11, 30, "Restricted Area", 1, 1⟩

/-- A play-by-play frame holding a single event of game 1. -/
def pbpOneGame : List PbpFrameRow := [⟨1, 1, "11:30", 5, none, none, none⟩]

/-- A shot used for join-miss witnesses (game 3, period 2, 5:10). -/
def shotNoMatch : SRow := ⟨3, "d", 7, "Q", "U", 2, 5, 10, "Mid-Range", 1, 0⟩

/-- A batch with one malformed game (game 1, unparseable clock "xx") and
one well-formed game (game 2). -/
def pbpBadGame : List PbpFrameRow :=
  [⟨1, 1, "xx", 3, none, none, none⟩, ⟨2, 1, "11:30", 5, none, none, none⟩]

/-- The well-formed game of `pbpBadGame`, alone. -/
def pbpGoodGame : List PbpFrameRow := [⟨2, 1, "11:30", 5, none, none, none⟩]

/-- A one-row raw play-by-play frame (differential -5). -/
def pbpSmall : List PbpFrameRow := [⟨1, 1, "11:30", -5, none, none, none⟩]

/-- The state of `pbpSmall` after `pbp_processing` ran on it: the three
derived columns have been added in place. -/
def pbpSmallMut : List PbpFrameRow := [⟨1, 1, "11:30", -5, some 11, some 30, some 5⟩]

/-- A one-row bucketed shot frame: 10 attempts, 4 makes, 2 three-point
makes, in the first bucket pair. -/
def dfEfg : List BRow := [⟨"p", "t", 10, 4, 5, 2, some "4-0", some "0-5"⟩]

/-- A cleaned shot row whose absolute score differential 101 lies above the
last bin edge of the score-differential cut. -/
def rowBigDiff : ClnRow := ⟨"p", "t", 1, 1, 0, 0, 101, 30⟩

/-- A shot from a three-point zone. -/
def shotZone3 : SRow := ⟨1, "d", 1, "P", "T", 1, 0, 30, "Above the Break 3", 1, 1⟩

/-- A shot from a two-point zone. -/
def shotZoneRA : SRow := ⟨1, "d", 1, "P", "T", 1, 0, 30, "Restricted Area", 1, 0⟩

/-- A shot in game 1 at period 1, 11:30 on the clock. -/
def shotEarly : SRow := ⟨1, "d", 1, "P", "T", 1, 11, 30, "Mid-Range", 1, 0⟩

/-- C4: on `pbpThreeRows`, the output of `pbp_processing` is ordered with
period descending and minutes ascending — the `ascending = [True, False,
True, True]` list of `sort_values` pairs `False` with `PERIOD`, not with
`MINUTES_REMAINING`, so the spec's "period ascending, minutes_remaining
descending" ordering does not hold. -/
theorem pbp_processing_period_descending_on_pbpThreeRows :
    ((pbp_processing pbpThreeRows).map fun p => p.1.map fun r => (r.period, r.minutes)) =
      .ok [(2, 11), (1, 5), (1, 11)] := by decide

/-- C9: the player filter takes precedence over the team filter: with both
names given the team name is ignored; with only a team name the team
filter is applied; with neither, no row is filtered out. -/
theorem aggregate_data_filter_precedence (df : List BRow) (p t : String) :
    aggregate_data df (some p) (some t) =
      groupAndSum (df.filter fun r => decide (r.player_name = p)) ∧
    aggregate_data df none (some t) =
      groupAndSum (df.filter fun r => decide (r.team_name = t)) ∧
    aggregate_data df none none = groupAndSum df :=
  ⟨rfl, rfl, rfl⟩

/-- C5: every row of `shot_detail_time_elapsed`'s output carries the time
elapsed that the `process_score_difference` formula (`timeElapsedPBP`)
assigns to its period and clock fields: the regulation/overtime split is
only an implementation partition. -/
theorem shot_detail_time_elapsed_matches_pbp_formula (shots : List SRow) (r : STRow)
    (h : r ∈ shot_detail_time_elapsed shots) :
    r.time_elapsed =
      timeElapsedPBP r.shot.period r.shot.minutes_remaining r.shot.seconds_remaining := by
  unfold shot_detail_time_elapsed at h
  rcases List.mem_append.mp h with h | h <;> obtain ⟨s, hs, rfl⟩ := List.mem_map.mp h
  · have hp : s.period ≤ 4 := by
      have := (List.mem_filter.mp hs).2
      simpa using this
    simp only [shotTEreg, timeElapsedPBP, if_pos hp]
    ring
  · have hp : ¬ s.period ≤ 4 := by
      have := (List.mem_filter.mp hs).2
      simp at this
      omega
    simp only [shotTEot, timeElapsedPBP, if_neg hp]
    ring

/-- C5 witness: a shot at period 1, 11:30 on the clock gets time elapsed
30, and it agrees with the play-by-play formula. -/
theorem shot_detail_time_elapsed_witness :
    (⟨shotEarly, 30⟩ : STRow).time_elapsed = timeElapsedPBP 1 11 30 ∧
      timeElapsedPBP 1 11 30 = 30 :=
  ⟨shot_detail_time_elapsed_matches_pbp_formula [shotEarly] _ (by decide), by decide⟩

/-- Every output row of the shot join for shot `s` is `mkOut s a` for some
attached score difference `a`. -/
theorem rowsFor_shape (tl : List TRow) (s : STRow) (r : OutRow)
    (h : r ∈ rowsFor tl s) : ∃ a, r = mkOut s a := by
  unfold rowsFor at h
  cases hm : rowsMatch tl s with
  | nil =>
    rw [hm] at h
    simp at h
    exact ⟨none, h⟩
  | cons t ts =>
    rw [hm] at h
    obtain ⟨t2, _, rfl⟩ := List.mem_map.mp h
    exact ⟨t2.abs, rfl⟩

/-- C7: in every row the join emits for a shot, the three-point flag is 1
exactly when the shot's zone label contains the character "3", and 0
otherwise. -/
theorem three_pt_flag_iff_zone_contains_3 (tl : List TRow) (s : STRow) (r : OutRow)
    (h : r ∈ rowsFor tl s) :
    (r.three_pt_attempted_flag = 1 ↔ '3' ∈ s.shot.shot_zone.data) ∧
    ('3' ∉ s.shot.shot_zone.data → r.three_pt_attempted_flag = 0) := by
  obtain ⟨a, rfl⟩ := rowsFor_shape tl s r h
  unfold mkOut
  by_cases hz : '3' ∈ s.shot.shot_zone.data <;> simp [hz]

/-- C7 witness: "Above the Break 3" gets flag 1 and "Restricted Area" gets
flag 0. -/
theorem three_pt_flag_witness :
    (mkOut ⟨shotZone3, 690⟩ none).three_pt_attempted_flag = 1 ∧
    (mkOut ⟨shotZoneRA, 690⟩ none).three_pt_attempted_flag = 0 :=
  ⟨(three_pt_flag_iff_zone_contains_3 [] ⟨shotZone3, 690⟩ _ (by decide)).1.mpr (by decide),
   (three_pt_flag_iff_zone_contains_3 [] ⟨shotZoneRA, 690⟩ _ (by decide)).2 (by decide)⟩

/-- C8 (amended): the score-differential cut maps each value of `[0, 100]`
to its labeled range — in particular all of `[21, 100]` to "21+" — and
values above the last bin edge 100 to no bucket at all. -/
theorem scoreBucketOf_ranges (d : ℕ) :
    (d ≤ 5 → scoreBucketOf d = some "0-5") ∧
    (6 ≤ d → d ≤ 10 → scoreBucketOf d = some "6-10") ∧
    (11 ≤ d → d ≤ 15 → scoreBucketOf d = some "11-15") ∧
    (16 ≤ d → d ≤ 20 → scoreBucketOf d = some "16-20") ∧
    (21 ≤ d → d ≤ 100 → scoreBucketOf d = some "21+") ∧
    (101 ≤ d → scoreBucketOf d = none) := by
  unfold scoreBucketOf
  split_ifs <;> refine ⟨?_, ?_, ?_, ?_, ?_, ?_⟩ <;> intros <;> first | rfl | omega

/-- C8 counterexample: a shot with absolute score differential 101 gets no
score bucket from `create_buckets` (so it is not in the "21+" bucket), and
the aggregation counts none of its attempts. -/
theorem shot_above_last_bin_edge_dropped :
    (create_buckets [rowBigDiff]).map (·.scoreBucket) = [none] ∧
    ((aggregate_data (create_buckets [rowBigDiff]) none none).map (·.fga)).sum = 0 := by
  constructor
  · decide
  · decide

/-- C8 witness: 25 is bucketed as "21+", 101 is not bucketed. -/
theorem scoreBucketOf_ranges_witness :
    scoreBucketOf 25 = some "21+" ∧ scoreBucketOf 101 = none :=
  ⟨(scoreBucketOf_ranges 25).2.2.2.2.1 (by decide) (by decide),
   (scoreBucketOf_ranges 101).2.2.2.2.2 (by decide)⟩

/-- The filter step of `aggregate_data` only removes rows. -/
theorem filterStep_subset (pn tn : Option String) (df : List BRow) (r : BRow)
    (h : r ∈ filterStep pn tn df) : r ∈ df := by
  unfold filterStep at h
  cases pn with
  | some p => exact (List.mem_filter.mp h).1
  | none =>
    cases tn with
    | some t => exact (List.mem_filter.mp h).1
    | none => exact h

/-- C6: every aggregated bucket's `EFG` is `round((FGM + 0.5*3PM)/FGA, 3)`
when the bucket has attempts, and the `NaN` of `0/0` — an undefined value
distinct from every number, rendered blank downstream — when it has none.
The hypothesis states that each row's makes are at most its attempts and
its three-point makes at most its makes, as holds of every cleaned shot
row. -/
theorem aggregate_data_efg (df : List BRow) (pn tn : Option String)
    (h : ∀ r ∈ df, r.fgm ≤ r.fga ∧ r.threePM ≤ r.fgm) :
    ∀ b ∈ aggregate_data df pn tn,
      (b.fga ≠ 0 →
        b.efg = PdFloat.finite (round3 (((b.fgm : ℚ) + (1 / 2) * (b.threePM : ℚ)) / (b.fga : ℚ)))) ∧
      (b.fga = 0 → b.efg = PdFloat.nan) := by
  intro b hb
  unfold aggregate_data groupAndSum at hb
  obtain ⟨k, hk, rfl⟩ := List.mem_map.mp hb
  constructor
  · intro hfga
    simp only at hfga ⊢
    unfold pdDiv
    rw [if_neg (by exact_mod_cast hfga)]
    rfl
  · intro hfga
    simp only at hfga ⊢
    have hrows : ∀ r ∈ (filterStep pn tn df).filter
        (fun r => decide (r.minuteBucket = some k.1) && decide (r.scoreBucket = some k.2)),
        r.fga = 0 := by
      intro r hr
      have := List.sum_eq_zero_iff.mp hfga
      exact this r.fga (List.mem_map_of_mem _ hr)
    have hfgm : (((filterStep pn tn df).filter
        (fun r => decide (r.minuteBucket = some k.1) && decide (r.scoreBucket = some k.2))).map
        (·.fgm)).sum = 0 := by
      apply List.sum_eq_zero
      intro x hx
      obtain ⟨r, hr, rfl⟩ := List.mem_map.mp hx
      have hdf := filterStep_subset pn tn df r (List.mem_filter.mp hr).1
      have := (h r hdf).1
      have := hrows r hr
      omega
    have htpm : (((filterStep pn tn df).filter
        (fun r => decide (r.minuteBucket = some k.1) && decide (r.scoreBucket = some k.2))).map
        (·.threePM)).sum = 0 := by
      apply List.sum_eq_zero
      intro x hx
      obtain ⟨r, hr, rfl⟩ := List.mem_map.mp hx
      have hdf := filterStep_subset pn tn df r (List.mem_filter.mp hr).1
      have h1 := (h r hdf).1
      have h2 := (h r hdf).2
      have := hrows r hr
      omega
    unfold pdDiv
    rw [hfga, hfgm, htpm]
    norm_num
    rfl

/-- C6 witness: the bucket holding FGM=4, 3PM=2, FGA=10 gets EFG 0.500,
and with no rows at all the first bucket (zero attempts) gets `NaN`. -/
theorem aggregate_data_efg_witness :
    (aggregate_data dfEfg none none).head?.map (·.efg) = some (PdFloat.finite (1 / 2)) ∧
    (aggregate_data ([] : List BRow) none none).head?.map (·.efg) = some PdFloat.nan := by
  constructor
  · have hne : aggregate_data dfEfg none none ≠ [] := by decide
    have hh := List.head?_eq_head hne
    have hmem := List.head_mem hne
    have hfga : ((aggregate_data dfEfg none none).head hne).fga = 10 := by
      have h10 : (aggregate_data dfEfg none none).head?.map (·.fga) = some 10 := by decide
      rw [hh] at h10
      simpa using h10
    have e1 : ((aggregate_data dfEfg none none).head hne).fgm = 4 := by
      have h4 : (aggregate_data dfEfg none none).head?.map (·.fgm) = some 4 := by decide
      rw [hh] at h4
      simpa using h4
    have e2 : ((aggregate_data dfEfg none none).head hne).threePM = 2 := by
      have h2 : (aggregate_data dfEfg none none).head?.map (·.threePM) = some 2 := by decide
      rw [hh] at h2
      simpa using h2
    have hmain := (aggregate_data_efg dfEfg none none (by decide) _ hmem).1
      (by rw [hfga]; omega)
    rw [hh, Option.map_some', hmain, hfga, e1, e2]
    norm_num [round3, bankersRound, ratFloor]
  · have hne : aggregate_data ([] : List BRow) none none ≠ [] := by decide
    have hh := List.head?_eq_head hne
    have hmem := List.head_mem hne
    have hfga : ((aggregate_data ([] : List BRow) none none).head hne).fga = 0 := by
      have h0 : (aggregate_data ([] : List BRow) none none).head?.map (·.fga) = some 0 := by decide
      rw [hh] at h0
      simpa using h0
    have hmain := (aggregate_data_efg ([] : List BRow) none none (by simp) _ hmem).2 hfga
    rw [hh, Option.map_some', hmain]

/-- Parsing the clock column preserves the original columns of every row
and fills the three derived columns. -/
theorem parseAll_base (pbp : List PbpFrameRow) (st : List PbpFrameRow)
    (h : parseAll pbp = .ok st) :
    st.map (fun r => (r.gameid, r.period, r.endtime, r.startscorediff)) =
      pbp.map (fun r => (r.gameid, r.period, r.endtime, r.startscorediff)) ∧
    ∀ r ∈ st, r.minutes_remaining ≠ none ∧ r.seconds_remaining ≠ none ∧
      r.abs_score_diff ≠ none := by
  induction pbp generalizing st with
  | nil =>
    cases h
    exact ⟨rfl, by simp⟩
  | cons a l ih =>
    unfold parseAll at h
    cases hp : parseRow a with
    | error e => rw [hp] at h; cases h
    | ok a2 =>
      rw [hp] at h
      cases hl : parseAll l with
      | error e => rw [hl] at h; cases h
      | ok l2 =>
        rw [hl] at h
        cases h
        obtain ⟨ih1, ih2⟩ := ih l2 hl
        constructor
        · unfold parseRow at hp
          cases hc : parseClock a.endtime with
          | none => rw [hc] at hp; cases hp
          | some ms =>
            rw [hc] at hp
            cases hp
            simpa using ih1
        · intro r hr
          rcases List.mem_cons.mp hr with rfl | hr
          · unfold parseRow at hp
            cases hc : parseClock a.endtime with
            | none => rw [hc] at hp; cases hp
            | some ms =>
              rw [hc] at hp
              cases hp
              simp
          · exact ih2 r hr

/-- C10 (amended): `pbp_processing` preserves the values and order of the
caller's original columns but adds the three derived columns in place: the
input table is not left unchanged. -/
theorem pbp_processing_mutates_only_added_columns (pbp : List PbpFrameRow)
    (out : List NRow) (st : List PbpFrameRow)
    (h : pbp_processing pbp = .ok (out, st)) :
    st.map (fun r => (r.gameid, r.period, r.endtime, r.startscorediff)) =
      pbp.map (fun r => (r.gameid, r.period, r.endtime, r.startscorediff)) ∧
    ∀ r ∈ st, r.minutes_remaining ≠ none ∧ r.seconds_remaining ≠ none ∧
      r.abs_score_diff ≠ none := by
  unfold pbp_processing at h
  cases hpa : parseAll pbp with
  | error e => rw [hpa] at h; cases h
  | ok st2 =>
    rw [hpa] at h
    simp only [Except.ok.injEq, Prod.mk.injEq] at h
    obtain ⟨h1, h2⟩ := h
    subst h2
    exact parseAll_base pbp st2 hpa

/-- C10 counterexample: after `pbp_processing` runs on `pbpSmall`, the
caller's frame holds the three added columns — it is not the unchanged
input. -/
theorem pbp_processing_input_changed :
    pbp_processing pbpSmall = .ok ([⟨1, 1, 11, 30, 5⟩], pbpSmallMut) ∧
    pbpSmallMut ≠ pbpSmall := by
  constructor
  · decide
  · decide

/-- C10 witness: on `pbpSmall` the original columns survive unchanged. -/
theorem pbp_processing_mutates_only_added_columns_witness :
    pbpSmallMut.map (fun r => (r.gameid, r.period, r.endtime, r.startscorediff)) =
      pbpSmall.map (fun r => (r.gameid, r.period, r.endtime, r.startscorediff)) :=
  (pbp_processing_mutates_only_added_columns pbpSmall [⟨1, 1, 11, 30, 5⟩] pbpSmallMut
    (by decide)).1

/-- A frame containing a row with an unparseable clock string makes the
column parse fail. -/
theorem parseAll_fails (l : List PbpFrameRow) (r : PbpFrameRow) (hr : r ∈ l)
    (hbad : parseClock r.endtime = none) : (parseAll l).isOk = false := by
  induction l with
  | nil => cases hr
  | cons a l ih =>
    unfold parseAll
    rcases List.mem_cons.mp hr with rfl | hr
    · unfold parseRow
      rw [hbad]
      rfl
    · cases hp : parseRow a with
      | error e => rfl
      | ok a2 =>
        cases hl : parseAll l with
        | error e => rfl
        | ok l2 =>
          have := ih hr
          rw [hl] at this
          cases this

/-- The function `pbp_processing` fails whenever the clock parse fails. -/
theorem pbp_processing_fails (l : List PbpFrameRow) (r : PbpFrameRow) (hr : r ∈ l)
    (hbad : parseClock r.endtime = none) : (pbp_processing l).isOk = false := by
  unfold pbp_processing
  cases hpa : parseAll l with
  | error e => rfl
  | ok st =>
    have := parseAll_fails l r hr hbad
    rw [hpa] at this
    cases this

/-- Deduplication keeps every value that occurs. -/
theorem mem_uniqueAux {α : Type} [DecidableEq α] (a : α) (l : List α) :
    ∀ seen : List α, a ∈ l → a ∉ seen → a ∈ uniqueAux seen l := by
  induction l with
  | nil => intro seen h; cases h
  | cons x xs ih =>
    intro seen h hseen
    unfold uniqueAux
    rcases List.mem_cons.mp h with rfl | h
    · rw [if_neg hseen]
      exact List.mem_cons_self a _
    · by_cases hx : x ∈ seen
      · rw [if_pos hx]
        exact ih seen h hseen
      · rw [if_neg hx]
        by_cases hax : a = x
        · subst hax
          exact List.mem_cons_self a _
        · refine List.mem_cons_of_mem x (ih (x :: seen) h ?_)
          intro hmem
          rcases List.mem_cons.mp hmem with h1 | h1
          · exact hax h1
          · exact hseen h1

/-- Deduplication keeps every value that occurs. -/
theorem mem_uniqueKeep {α : Type} [DecidableEq α] (a : α) (l : List α)
    (h : a ∈ l) : a ∈ uniqueKeep l :=
  mem_uniqueAux a l [] h (by simp)

/-- If processing any listed game fails, the whole loop of
`pbp_game_processing` fails. -/
theorem processGames_fails (pbp : List PbpFrameRow) (gs : List ℕ) (g : ℕ)
    (hg : g ∈ gs)
    (hfail : (pbp_processing (pbp.filter (fun r => decide (r.gameid = g)))).isOk = false) :
    (processGames pbp gs).isOk = false := by
  induction gs with
  | nil => cases hg
  | cons g2 gs ih =>
    unfold processGames
    rcases List.mem_cons.mp hg with rfl | hg
    · cases hp : pbp_processing (pbp.filter (fun r => decide (r.gameid = g))) with
      | error e => rfl
      | ok df1 =>
        rw [hp] at hfail
        cases hfail
    · cases hp : pbp_processing (pbp.filter (fun r => decide (r.gameid = g2))) with
      | error e => rfl
      | ok df1 =>
        dsimp only []
        cases hpsd : process_score_difference df1.1 with
        | none => rfl
        | some tl =>
          dsimp only []
          cases hrest : processGames pbp gs with
          | error e => rfl
          | ok rest =>
            have := ih hg
            rw [hrest] at this
            cases this

/-- C3 (amended): a single game with a malformed clock string aborts the
whole batch of `pbp_game_processing` — the error propagates instead of
being confined to that game. -/
theorem pbp_game_processing_malformed_aborts_batch (pbp : List PbpFrameRow)
    (r : PbpFrameRow) (hr : r ∈ pbp) (hbad : parseClock r.endtime = none) :
    (pbp_game_processing pbp).isOk = false := by
  have hgid : r.gameid ∈ uniqueKeep (pbp.map (·.gameid)) :=
    mem_uniqueKeep _ _ (List.mem_map_of_mem _ hr)
  have hne : uniqueKeep (pbp.map (·.gameid)) ≠ [] := List.ne_nil_of_mem hgid
  unfold pbp_game_processing
  rw [if_neg hne]
  refine processGames_fails pbp _ r.gameid hgid ?_
  refine pbp_processing_fails _ r ?_ hbad
  exact List.mem_filter.mpr ⟨hr, by simp⟩

/-- C3 counterexample: on `pbpBadGame` — game 1 malformed, game 2
well-formed — the whole batch errors with the parse failure, producing no
output for game 2, although game 2 alone processes fine. -/
theorem malformed_game_blocks_whole_batch :
    pbp_game_processing pbpBadGame = .error "MalformedClock" ∧
    (pbp_processing pbpGoodGame).isOk = true := by
  constructor
  · decide
  · decide

/-- C3 witness: the batch result for `pbpBadGame` is not ok. -/
theorem pbp_game_processing_malformed_aborts_batch_witness :
    (pbp_game_processing pbpBadGame).isOk = false :=
  pbp_game_processing_malformed_aborts_batch pbpBadGame
    ⟨1, 1, "xx", 3, none, none, none⟩ (by decide) (by decide)

/-- Forward fill preserves the column length. -/
theorem ffillAux_length (last : Option ℕ) (l : List (Option ℕ)) :
    (ffillAux last l).length = l.length := by
  induction l generalizing last with
  | nil => rfl
  | cons a l ih => cases a <;> simp [ffillAux, ih]

/-- Forward fill leaves every present value in place. -/
theorem ffillAux_getElem?_some (l : List (Option ℕ)) : ∀ (last : Option ℕ) (i : ℕ) (v : ℕ),
    l[i]? = some (some v) → (ffillAux last l)[i]? = some (some v) := by
  induction l with
  | nil => intro last i v h; simp at h
  | cons a l ih =>
    intro last i v h
    cases a with
    | some w =>
      cases i with
      | zero =>
        simp at h
        subst h
        simp [ffillAux]
      | succ i =>
        simp only [List.getElem?_cons_succ] at h
        simpa [ffillAux] using ih (some w) i v h
    | none =>
      cases i with
      | zero => simp at h
      | succ i =>
        simp only [List.getElem?_cons_succ] at h
        simpa [ffillAux] using ih last i v h

/-- After forward filling with a present carried-in value, every cell is
present. -/
theorem ffillAux_isSome_of_last (l : List (Option ℕ)) (last : Option ℕ)
    (hl : last.isSome = true) : ∀ x ∈ ffillAux last l, x.isSome = true := by
  induction l generalizing last with
  | nil => simp [ffillAux]
  | cons a l ih =>
    intro x hx
    cases a with
    | none =>
      rcases List.mem_cons.mp hx with rfl | hx
      · exact hl
      · exact ih last hl x hx
    | some w =>
      rcases List.mem_cons.mp hx with rfl | hx
      · rfl
      · exact ih (some w) rfl x hx

/-- Forward filling a column whose first cell is present leaves no missing
cell. -/
theorem ffillAux_isSome_head (v : ℕ) (rest : List (Option ℕ)) :
    ∀ x ∈ ffillAux none (some v :: rest), x.isSome = true := by
  intro x hx
  rcases List.mem_cons.mp hx with rfl | hx
  · rfl
  · exact ffillAux_isSome_of_last rest (some v) rfl x hx

/-- Backward fill preserves the column length. -/
theorem bfillList_length (l : List (Option ℕ)) : (bfillList l).length = l.length := by
  unfold bfillList
  rw [List.length_reverse, ffillAux_length, List.length_reverse]

/-- Backward fill leaves every present value in place. -/
theorem bfillList_getElem?_some (l : List (Option ℕ)) (i : ℕ) (v : ℕ)
    (h : l[i]? = some (some v)) : (bfillList l)[i]? = some (some v) := by
  have hi : i < l.length := by
    by_contra hge
    rw [List.getElem?_eq_none (by omega)] at h
    cases h
  have hlen : (ffillAux none l.reverse).length = l.length := by
    rw [ffillAux_length, List.length_reverse]
  have hi2 : i < (ffillAux none l.reverse).length := by omega
  unfold bfillList
  rw [List.getElem?_reverse (by omega)]
  rw [hlen]
  apply ffillAux_getElem?_some
  rw [List.getElem?_reverse (by omega)]
  have heq : l.length - 1 - (l.length - 1 - i) = i := by omega
  rw [heq]
  exact h

/-- Updating the score column of a frame with a column of matching length
keeps the other fields of every row and installs the new column. -/
theorem zipAbs_maps (rows : List TRow) : ∀ l2 : List (Option ℕ), l2.length = rows.length →
    ((rows.zip l2).map (fun p => { p.1 with abs := p.2 })).map (·.time_elapsed) =
      rows.map (·.time_elapsed) ∧
    ((rows.zip l2).map (fun p => { p.1 with abs := p.2 })).map (·.game_id) =
      rows.map (·.game_id) ∧
    ((rows.zip l2).map (fun p => { p.1 with abs := p.2 })).map (·.abs) = l2 := by
  induction rows with
  | nil =>
    intro l2 h
    rw [List.length_nil, List.length_eq_zero] at h
    subst h
    exact ⟨rfl, rfl, rfl⟩
  | cons r rows ih =>
    intro l2 h
    cases l2 with
    | nil => simp at h
    | cons a l2 =>
      simp only [List.length_cons, Nat.succ.injEq] at h
      obtain ⟨h1, h2, h3⟩ := ih l2 h
      simp only [List.zip_cons_cons, List.map_cons]
      exact ⟨by rw [h1], by rw [h2], by rw [h3]⟩

/-- Applying `applyAbs` with a length-preserving column transformation `f` keeps
the `TIME_ELAPSED` and `GAME_ID` columns and replaces the score column by
`f` of it. -/
theorem applyAbs_maps (f : List (Option ℕ) → List (Option ℕ))
    (hf : ∀ l, (f l).length = l.length) (rows : List TRow) :
    (applyAbs f rows).map (·.time_elapsed) = rows.map (·.time_elapsed) ∧
    (applyAbs f rows).map (·.game_id) = rows.map (·.game_id) ∧
    (applyAbs f rows).map (·.abs) = f (rows.map (·.abs)) := by
  unfold applyAbs
  exact zipAbs_maps rows (f (rows.map (·.abs))) (by rw [hf, List.length_map])

/-- Every row the merge emits for the grid second `t` carries the game id
and the second `t` itself. -/
theorem branchAt_fields (gid : ℕ) (game : List NRow) (t : ℕ) :
    ∀ r ∈ branchAt gid game t, r.game_id = gid ∧ r.time_elapsed = t := by
  intro r hr
  unfold branchAt at hr
  cases hm : game.filter (fun r => decide (timeElapsedN r = (t : ℤ))) with
  | nil =>
    rw [hm] at hr
    simp at hr
    subst hr
    exact ⟨rfl, rfl⟩
  | cons a l =>
    rw [hm] at hr
    obtain ⟨r2, _, rfl⟩ := List.mem_map.mp hr
    exact ⟨rfl, rfl⟩

/-- Every row of the merged grid carries the game id. -/
theorem mem_mergeGrid_game_id (gid : ℕ) (n : ℕ) (game : List NRow) :
    ∀ r ∈ mergeGrid gid n game, r.game_id = gid := by
  intro r hr
  obtain ⟨t, _, hmem⟩ := List.mem_flatMap.mp hr
  exact (branchAt_fields gid game t r hmem).1

/-- The update `setZero` keeps the `GAME_ID` column. -/
theorem setZero_map_game_id (rows : List TRow) :
    (setZero rows).map (·.game_id) = rows.map (·.game_id) := by
  unfold setZero
  rw [List.map_map]
  apply List.map_congr_left
  intro r _
  by_cases h : r.time_elapsed = 0 <;> simp [h]

/-- The update `setZero` keeps the `TIME_ELAPSED` column. -/
theorem setZero_map_time (rows : List TRow) :
    (setZero rows).map (·.time_elapsed) = rows.map (·.time_elapsed) := by
  unfold setZero
  rw [List.map_map]
  apply List.map_congr_left
  intro r _
  by_cases h : r.time_elapsed = 0 <;> simp [h]

/-- Every row of the timeline `process_score_difference` emits carries the
first event row's game id. -/
theorem process_score_difference_game_id (g0 : NRow) (rest : List NRow) (tl : List TRow)
    (h : process_score_difference (g0 :: rest) = some tl) :
    ∀ r ∈ tl, r.game_id = g0.gameid := by
  unfold process_score_difference at h
  simp only [Option.some.injEq] at h
  subst h
  intro r hr
  have h2 := (applyAbs_maps (ffillAux none) (ffillAux_length none)
    (applyAbs bfillList (setZero (mergeGrid g0.gameid (maxGameSeconds (g0 :: rest) + 1)
      (g0 :: rest))))).2.1
  have h1 := (applyAbs_maps bfillList bfillList_length
    (setZero (mergeGrid g0.gameid (maxGameSeconds (g0 :: rest) + 1) (g0 :: rest)))).2.1
  have h0 := setZero_map_game_id (mergeGrid g0.gameid (maxGameSeconds (g0 :: rest) + 1) (g0 :: rest))
  have hmem : r.game_id ∈ (applyAbs (ffillAux none)
      (applyAbs bfillList (setZero (mergeGrid g0.gameid (maxGameSeconds (g0 :: rest) + 1)
        (g0 :: rest))))).map (·.game_id) := List.mem_map_of_mem _ hr
  rw [h2, h1, h0] at hmem
  obtain ⟨r2, hr2, hid⟩ := List.mem_map.mp hmem
  rw [← hid]
  exact mem_mergeGrid_game_id _ _ _ r2 hr2

/-- C2 (amended): the forward fill of the score column happens on the
timeline before the join; a shot whose `(GAME_ID, TIME_ELAPSED)` has no
match in the filled timeline still appears in the joined output — with a
missing score difference — and the join itself never raises. -/
theorem join_miss_keeps_shot_with_missing_absdiff (shots : List SRow) (tl : List TRow)
    (s : STRow) (hs : s ∈ shot_detail_time_elapsed shots)
    (hm : rowsMatch (ffillAbsCol tl) s = []) :
    mkOut s none ∈ joinShots (shot_detail_time_elapsed shots) (ffillAbsCol tl) ∧
    ∀ pbp, pbp_game_processing pbp = .ok tl →
      full_shot_detail_output shots pbp =
        .ok (joinShots (shot_detail_time_elapsed shots) (ffillAbsCol tl)) := by
  constructor
  · unfold joinShots
    apply List.mem_flatMap.mpr
    refine ⟨s, hs, ?_⟩
    unfold rowsFor
    rw [hm]
    simp
  · intro pbp h
    unfold full_shot_detail_output
    simp only [h]

/-- C2 (amended) witness: with an empty timeline, the join emits the shot
with a missing score difference. -/
theorem join_miss_keeps_shot_witness :
    mkOut ⟨shotNoMatch, 1130⟩ none ∈
      joinShots (shot_detail_time_elapsed [shotNoMatch]) (ffillAbsCol []) :=
  (join_miss_keeps_shot_with_missing_absdiff [shotNoMatch] [] ⟨shotNoMatch, 1130⟩
    (by decide) (by decide)).1

/-- C2 counterexample: a shot of game 2 joined against a play-by-play
frame that only covers game 1 comes out with a **missing** score
difference: no forward fill happens on the joined result. -/
theorem join_miss_leaves_missing_absdiff :
    (full_shot_detail_output [shotOtherGame] pbpOneGame).map (List.map (·.abs_score_diff)) =
      .ok [none] := by
  have hgame1 : pbp_processing (pbpOneGame.filter (fun r => decide (r.gameid = 1))) =
      .ok (gameOneEvent, [⟨1, 1, "11:30", 5, some 11, some 30, some 5⟩]) := by decide
  obtain ⟨tl, hpsd⟩ : ∃ tl, process_score_difference gameOneEvent = some tl := ⟨_, rfl⟩
  have hgid : ∀ r ∈ tl, r.game_id = 1 := by
    have := process_score_difference_game_id ⟨1, 1, 11, 30, 5⟩ [] tl (by rw [← hpsd]; rfl)
    simpa using this
  have huniq : uniqueKeep (pbpOneGame.map (·.gameid)) = [1] := by decide
  have hbatch : pbp_game_processing pbpOneGame = .ok (tl ++ []) := by
    unfold pbp_game_processing
    rw [huniq, if_neg (by decide)]
    unfold processGames
    simp only [hgame1]
    rw [hpsd]
    rfl
  have hsd : shot_detail_time_elapsed [shotOtherGame] = [⟨shotOtherGame, 30⟩] := by decide
  have hffgid : ∀ t ∈ ffillAbsCol tl, t.game_id = 1 := by
    intro t ht
    have hmap := (applyAbs_maps (ffillAux none) (ffillAux_length none) tl).2.1
    have : t.game_id ∈ (ffillAbsCol tl).map (·.game_id) := List.mem_map_of_mem _ ht
    unfold ffillAbsCol at this
    rw [hmap] at this
    obtain ⟨r2, hr2, hid⟩ := List.mem_map.mp this
    rw [← hid]
    exact hgid r2 hr2
  have hmatch : rowsMatch (ffillAbsCol tl) ⟨shotOtherGame, 30⟩ = [] := by
    apply List.filter_eq_nil_iff.mpr
    intro t ht
    have := hffgid t ht
    simp [this, shotOtherGame]
  unfold full_shot_detail_output
  simp only [hbatch]
  rw [List.append_nil, hsd]
  unfold joinShots
  rw [List.flatMap_cons, List.flatMap_nil]
  unfold rowsFor
  rw [hmatch]
  rfl

/-- When the events' elapsed times are pairwise distinct, at most one event
matches any grid second. -/
theorem filter_te_len_le_one (game : List NRow) (t : ℤ)
    (hd : game.Pairwise (fun a b => timeElapsedN a ≠ timeElapsedN b)) :
    (game.filter (fun r => decide (timeElapsedN r = t))).length ≤ 1 := by
  induction game with
  | nil => simp
  | cons a g ih =>
    rw [List.pairwise_cons] at hd
    obtain ⟨ha, hg⟩ := hd
    by_cases hat : timeElapsedN a = t
    · rw [List.filter_cons_of_pos (by simp [hat])]
      have hnil : g.filter (fun r => decide (timeElapsedN r = t)) = [] := by
        apply List.filter_eq_nil_iff.mpr
        intro b hb
        simp only [decide_eq_true_eq]
        intro hbt
        exact ha b hb (by rw [hat, hbt])
      rw [hnil]
      simp
    · rw [List.filter_cons_of_neg (by simp [hat])]
      exact ih hg

/-- With pairwise distinct elapsed times, the merge emits exactly one row
per grid second, holding the matching event's value if any. -/
theorem branchAt_eq_single (gid : ℕ) (game : List NRow) (t : ℕ)
    (hd : game.Pairwise (fun a b => timeElapsedN a ≠ timeElapsedN b)) :
    branchAt gid game t = [⟨gid, t, lookAbs game t⟩] := by
  unfold branchAt lookAbs
  have hle := filter_te_len_le_one game (t : ℤ) hd
  cases hf : game.filter (fun r => decide (timeElapsedN r = (t : ℤ))) with
  | nil => rfl
  | cons r rest =>
    rw [hf] at hle
    have hrest : rest = [] := by
      cases rest with
      | nil => rfl
      | cons x xs => simp at hle
    subst hrest
    rfl

/-- With pairwise distinct elapsed times, the merged grid is exactly the
second range with one value lookup per second. -/
theorem mergeGrid_eq_map (gid : ℕ) (game : List NRow)
    (hd : game.Pairwise (fun a b => timeElapsedN a ≠ timeElapsedN b)) (n : ℕ) :
    mergeGrid gid n game =
      (List.range n).map (fun t => ⟨gid, t, lookAbs game t⟩) := by
  induction n with
  | zero => rfl
  | succ n ih =>
    unfold mergeGrid at ih ⊢
    rw [List.range_succ, List.flatMap_append, List.map_append, ih]
    rw [List.flatMap_cons, List.flatMap_nil, branchAt_eq_single gid game n hd]
    simp

/-- The update `setZero` rewrites the score column pointwise. -/
theorem setZero_map_abs (rows : List TRow) :
    (setZero rows).map (·.abs) =
      rows.map (fun r => if r.time_elapsed = 0 then some 0 else r.abs) := by
  unfold setZero
  rw [List.map_map]
  apply List.map_congr_left
  intro r _
  by_cases h : r.time_elapsed = 0 <;> simp [h]

/-- Applying `applyAbs` with a length-preserving column transformation preserves the
number of rows. -/
theorem applyAbs_length (f : List (Option ℕ) → List (Option ℕ))
    (hf : ∀ l, (f l).length = l.length) (rows : List TRow) :
    (applyAbs f rows).length = rows.length := by
  have h := (applyAbs_maps f hf rows).1
  have := congrArg List.length h
  rwa [List.length_map, List.length_map] at this

/-- C1 (amended): for a game with at least one event whose elapsed times
are pairwise distinct, the timeline has exactly `max_game_seconds + 1`
rows — one per integer second, in order — with no missing score
difference, and value 0 at second 0. -/
theorem process_score_difference_dense_grid (game : List NRow) (hne : game ≠ [])
    (hd : game.Pairwise (fun a b => timeElapsedN a ≠ timeElapsedN b)) :
    ∃ out, process_score_difference game = some out ∧
      out.length = maxGameSeconds game + 1 ∧
      out.map (·.time_elapsed) = List.range (maxGameSeconds game + 1) ∧
      (∀ r ∈ out, r.abs ≠ none) ∧
      (∀ r ∈ out, r.time_elapsed = 0 → r.abs = some 0) := by
  obtain ⟨g0, rest, rfl⟩ : ∃ g0 rest, game = g0 :: rest := by
    cases game with
    | nil => exact absurd rfl hne
    | cons a l => exact ⟨a, l, rfl⟩
  have hn0 : 0 < maxGameSeconds (g0 :: rest) + 1 := Nat.succ_pos _
  set n := maxGameSeconds (g0 :: rest) + 1 with hn
  set M := mergeGrid g0.gameid n (g0 :: rest) with hM
  set Z := setZero M with hZ
  set B := applyAbs bfillList Z with hB
  set F := applyAbs (ffillAux none) B with hF
  have hpsd : process_score_difference (g0 :: rest) = some F := rfl
  have hmg := mergeGrid_eq_map g0.gameid (g0 :: rest) hd n
  -- the TIME_ELAPSED column of every stage is `range n`
  have hMtime : M.map (·.time_elapsed) = List.range n := by
    rw [hM, hmg, List.map_map]
    have : ((fun r : TRow => r.time_elapsed) ∘ fun t => (⟨g0.gameid, t, lookAbs (g0 :: rest) t⟩ : TRow)) =
        fun t => t := rfl
    rw [this]
    exact List.map_id' (List.range n)
  have hZtime : Z.map (·.time_elapsed) = List.range n := by
    rw [hZ, setZero_map_time, hMtime]
  have hBtime : B.map (·.time_elapsed) = List.range n := by
    rw [hB, (applyAbs_maps bfillList bfillList_length Z).1, hZtime]
  have hFtime : F.map (·.time_elapsed) = List.range n := by
    rw [hF, (applyAbs_maps (ffillAux none) (ffillAux_length none) B).1, hBtime]
  -- the score column of `Z` holds `some 0` at position 0
  have hZabs0 : (Z.map (·.abs))[0]? = some (some 0) := by
    rw [hZ, setZero_map_abs, hM, hmg, List.map_map]
    rw [List.getElem?_map, List.getElem?_range hn0]
    rfl
  have hBabs : B.map (·.abs) = bfillList (Z.map (·.abs)) :=
    (applyAbs_maps bfillList bfillList_length Z).2.2
  have hBabs0 : (B.map (·.abs))[0]? = some (some 0) := by
    rw [hBabs]
    exact bfillList_getElem?_some _ 0 0 hZabs0
  have hFabs : F.map (·.abs) = ffillAux none (B.map (·.abs)) :=
    (applyAbs_maps (ffillAux none) (ffillAux_length none) B).2.2
  obtain ⟨tail, htail⟩ : ∃ tail, B.map (·.abs) = some 0 :: tail := by
    cases hBl : B.map (·.abs) with
    | nil => rw [hBl] at hBabs0; cases hBabs0
    | cons a t =>
      rw [hBl] at hBabs0
      simp at hBabs0
      exact ⟨t, by rw [hBabs0]⟩
  have hallsome : ∀ x ∈ F.map (·.abs), x.isSome = true := by
    rw [hFabs, htail]
    exact ffillAux_isSome_head 0 tail
  have hFabs0 : (F.map (·.abs))[0]? = some (some 0) := by
    rw [hFabs]
    exact ffillAux_getElem?_some _ none 0 0 hBabs0
  have hFlen : F.length = n := by
    have := congrArg List.length hFtime
    rwa [List.length_map, List.length_range] at this
  refine ⟨F, hpsd, hFlen, hFtime, ?_, ?_⟩
  · intro r hr
    have := hallsome r.abs (List.mem_map_of_mem _ hr)
    intro hnone
    rw [hnone] at this
    cases this
  · intro r hr hr0
    obtain ⟨i, hFi⟩ := List.mem_iff_getElem?.mp hr
    have hilt : i < F.length := by
      rcases List.getElem?_eq_some.mp hFi with ⟨h, _⟩
      exact h
    have htime_i : (F.map (·.time_elapsed))[i]? = some r.time_elapsed := by
      rw [List.getElem?_map, hFi]
      rfl
    have hrange_i : (List.range n)[i]? = some i := List.getElem?_range (by omega)
    rw [hFtime, hrange_i] at htime_i
    have hi0 : i = 0 := by
      have := Option.some.inj htime_i
      omega
    subst hi0
    have habs_i : (F.map (·.abs))[0]? = some r.abs := by
      rw [List.getElem?_map, hFi]
      rfl
    rw [hFabs0] at habs_i
    exact (Option.some.inj habs_i).symm

/-- C1 (amended) witness: the dense-grid properties at the one-event game
`gameOneEvent`. -/
theorem process_score_difference_dense_grid_witness :
    ∃ out, process_score_difference gameOneEvent = some out ∧
      out.length = maxGameSeconds gameOneEvent + 1 ∧
      out.map (·.time_elapsed) = List.range (maxGameSeconds gameOneEvent + 1) ∧
      (∀ r ∈ out, r.abs ≠ none) ∧
      (∀ r ∈ out, r.time_elapsed = 0 → r.abs = some 0) :=
  process_score_difference_dense_grid gameOneEvent (by decide) (by simp [gameOneEvent])

/-- On `gameOvertime`, the merge emits two rows for second 2880 and one
for every other second. -/
theorem branchAt_gameOvertime_length (t : ℕ) :
    (branchAt 1 gameOvertime t).length = if (2880 : ℤ) = (t : ℤ) then 2 else 1 := by
  have h1 : timeElapsedN ⟨1, 5, 5, 0, 3⟩ = 2880 := by decide
  have h2 : timeElapsedN ⟨1, 4, 0, 0, 3⟩ = 2880 := by decide
  unfold branchAt gameOvertime
  by_cases h : (2880 : ℤ) = (t : ℤ)
  · rw [if_pos h]
    rw [List.filter_cons_of_pos (by simp [h1, ← h]),
        List.filter_cons_of_pos (by simp [h2, ← h]),
        List.filter_nil]
    rfl
  · rw [if_neg h]
    rw [List.filter_cons_of_neg (by simp [h1]; omega),
        List.filter_cons_of_neg (by simp [h2]; omega),
        List.filter_nil]
    rfl

/-- The merged grid over `gameOvertime` has one extra row once the grid
reaches past second 2880. -/
theorem mergeGrid_gameOvertime_length (n : ℕ) :
    (mergeGrid 1 n gameOvertime).length = n + (if 2880 < n then 1 else 0) := by
  induction n with
  | zero => rfl
  | succ n ih =>
    unfold mergeGrid at ih ⊢
    rw [List.range_succ, List.flatMap_append, List.length_append, ih,
        List.flatMap_cons, List.flatMap_nil, List.append_nil]
    have hb := branchAt_gameOvertime_length n
    by_cases h : (2880 : ℤ) = (n : ℤ)
    · rw [if_pos h] at hb
      have hn : n = 2880 := by exact_mod_cast h.symm
      rw [hb]
      subst hn
      norm_num
    · rw [if_neg h] at hb
      have hn : n ≠ 2880 := by
        intro hc
        exact h (by exact_mod_cast hc.symm)
      rw [hb]
      split_ifs <;> omega

/-- C1 counterexample: `rawOvertime` — a game whose cleaned events survive
deduplication but share the elapsed second 2880 — yields a timeline of
3182 rows although `max_game_seconds + 1 = 3181`: the left merge
duplicates the shared second. -/
theorem timeline_duplicate_second_row_count :
    (pbp_processing rawOvertime).map Prod.fst = .ok gameOvertime ∧
    maxGameSeconds gameOvertime + 1 = 3181 ∧
    (process_score_difference gameOvertime).map List.length = some 3182 := by
  refine ⟨by decide, by decide, ?_⟩
  have hmax : maxGameSeconds gameOvertime + 1 = 3181 := by decide
  have hpsd : process_score_difference gameOvertime =
      some (applyAbs (ffillAux none) (applyAbs bfillList
        (setZero (mergeGrid 1 (maxGameSeconds gameOvertime + 1) gameOvertime)))) := rfl
  rw [hpsd]
  simp only [Option.map_some']
  rw [applyAbs_length (ffillAux none) (ffillAux_length none),
      applyAbs_length bfillList bfillList_length]
  have hsetlen : ∀ rows : List TRow, (setZero rows).length = rows.length := by
    intro rows
    unfold setZero
    exact List.length_map _ _
  rw [hsetlen, hmax, mergeGrid_gameOvertime_length]
  norm_num
